import Mathlib

/-!
Verification of the n0tvercel build-dispatch and log-delivery pipeline.

Shallow embedding of the core components, translated from the TypeScript
source:
* the Log Ingestion Consumer batch handler (`initKafkaConsumer.eachBatch`);
* the Build Executor's `publishLog` and the ECS launch environment
  (`runDeploymentTask`);
* the Bounded Uploader worker pool (`uploadFiles`);
* the Deployment Orchestrator `POST /deploy` route;
* the log query route `GET /logs/:id`;
* the Fan-out Relay bridge (socket.io room join / broadcast).
-/

namespace N0tvercel

/-! ## JSON-ish values on the broker wire

A broker record payload is either unparseable text (`JSON.parse` throws)
or a flat JSON object of string fields.  `JSON.stringify` on the producer
side omits fields whose value is `undefined`, which the `obj` field list
reflects by simply not containing the key. -/

inductive JsonValue where
  | malformed (raw : String)
  | obj (fields : List (String × String))
deriving DecidableEq, Repr

/-- A record consumed from the Message Broker.  `value = none` models a
record whose `msg.value` is null (JS-falsy), dropped by the
`messages.filter(msg => msg.value)` step. -/
structure BrokerRecord where
  value : Option JsonValue
  offset : Nat
deriving DecidableEq, Repr

/-- Field lookup on a parsed JSON object, as `parsedMessage.FIELD`. -/
def jsGet (fields : List (String × String)) (k : String) : Option String :=
  (fields.find? fun p => p.1 == k).map (·.2)

/-- JS truthiness of `parsedMessage.FIELD`: the field must be present and
not the empty string (the only falsy string). -/
def fieldTruthy (fields : List (String × String)) (k : String) : Bool :=
  match jsGet fields k with
  | none => false
  | some s => !(s == "")

/-- A record the consumer turns into a LogEvent: non-null payload, parseable,
with truthy `DEPLOYEMENT_ID` and `log` fields (field names exactly as the
consumer's validation reads them). -/
def wellFormed (r : BrokerRecord) : Bool :=
  match r.value with
  | none => false
  | some (.malformed _) => false
  | some (.obj f) => fieldTruthy f "DEPLOYEMENT_ID" && fieldTruthy f "log"

/-- A LogEvent row as written to the Log Sink (`log_events` table).
`event_id` is generated at ingestion (uuidv4, modelled by a fresh counter);
`timestamp` is the ingestion time. -/
structure LogEntry where
  event_id : Nat
  deployment_id : String
  log : String
  timestamp : Nat
deriving DecidableEq, Repr

/-- Result of one `eachBatch` invocation: the rows durably written to the
sink, the offsets passed to `resolveOffset` in call order, whether
`commitOffsetsIfNecessary` ran, and whether the post-commit `heartbeat`
ran. -/
structure BatchOutcome where
  inserted : List LogEntry
  resolved : List Nat
  committed : Bool
  heartbeat : Bool
deriving DecidableEq, Repr

/-- The per-message loop of `eachBatch`: parse, validate required fields,
collect well-formed entries, and `resolveOffset` every processed message
(also the malformed ones).  Returns the collected entries and the resolved
offsets.  `baseId` threads the fresh event-id source, `now` the ingestion
timestamp. -/
def processValid : List BrokerRecord → Nat → Nat → List LogEntry × List Nat
  | [], _, _ => ([], [])
  | r :: rest, baseId, now =>
    match r.value with
    | none => processValid rest baseId now
    | some (.malformed _) =>
      let p := processValid rest baseId now
      (p.1, r.offset :: p.2)
    | some (.obj f) =>
      if fieldTruthy f "DEPLOYEMENT_ID" && fieldTruthy f "log" then
        let p := processValid rest (baseId + 1) now
        (⟨baseId, (jsGet f "DEPLOYEMENT_ID").getD "", (jsGet f "log").getD "", now⟩ :: p.1,
         r.offset :: p.2)
      else
        let p := processValid rest baseId now
        (p.1, r.offset :: p.2)

/-- The consumer's `eachBatch` handler, as a function of the batch and of
the sink's response to the bulk insert (`insertOk`): filter null payloads,
return early if none remain, run the per-message loop, bulk-insert the
collected entries, and commit offsets plus heartbeat only when the insert
succeeded (or when there was nothing to insert). -/
def eachBatch (messages : List BrokerRecord) (insertOk : Bool)
    (baseId now : Nat) : BatchOutcome :=
  let validMessages := messages.filter fun m => m.value.isSome
  if validMessages.length = 0 then
    { inserted := [], resolved := [], committed := false, heartbeat := false }
  else
    let p := processValid validMessages baseId now
    if 0 < p.1.length && !insertOk then
      { inserted := [], resolved := p.2, committed := false, heartbeat := false }
    else
      { inserted := p.1, resolved := p.2, committed := true, heartbeat := true }

/-! ## Build Executor: launch environment and `publishLog`

From `runDeploymentTask` (the ECS launch) and `craft/script.ts`. -/

/-- The container environment the Orchestrator's launch call passes to the
Build Executor (`runDeploymentTask`'s `containerOverrides.environment`).
Note the key spelling `DEPLOYEMENT_ID`, exactly as in the source. -/
def launchEnvironment (gitURL projectId deploymentId : String) :
    List (String × String) :=
  [("GIT_REPOSITORY__URL", gitURL),
   ("PROJECT_ID", projectId),
   ("DEPLOYEMENT_ID", deploymentId)]

/-- `process.env.KEY` lookup inside the executor. -/
def envGet (env : List (String × String)) (k : String) : Option String :=
  (env.find? fun p => p.1 == k).map (·.2)

/-- The wire record `craft/script.ts`'s `publishLog` sends to the broker:
`JSON.stringify({ PROJECT_ID, DEPLOYMENT_ID, log })`, where `PROJECT_ID`
and `DEPLOYMENT_ID` are read from the executor's environment (note the
spelling `DEPLOYMENT_ID`, exactly as in the source) and `JSON.stringify`
omits keys whose value is `undefined`. -/
def publishLogValue (env : List (String × String)) (log : String) : JsonValue :=
  .obj (([("PROJECT_ID", envGet env "PROJECT_ID"),
          ("DEPLOYMENT_ID", envGet env "DEPLOYMENT_ID"),
          ("log", some log)]).filterMap fun p => p.2.map fun v => (p.1, v))

/-! ## Bounded Uploader worker pool

From `uploadFiles` in `craft/script.ts`: `d` discovered files, a shared
`nextIndex` counter, shared `completed`/`failed` tallies, and
`min CONCURRENCY d` workers.  JavaScript interleaves the workers only at
`await` points, so the claim (`nextIndex++` plus the bounds check) and each
tally update are atomic actions; the upload itself is the suspension
point.  The pool is modelled as a labelled transition system over the
shared state plus each worker's position in its loop. -/

/-- A worker's position in its loop: about to claim, holding a claimed
file index while its upload is in flight, or broken out of the loop. -/
inductive WStatus where
  | idle
  | working (i : Nat)
  | done
deriving DecidableEq, Repr

/-- The shared state of one `uploadFiles` worker pool run: the claim
counter `nextIndex`, the two tallies, the multiset of file indices claimed
so far (in claim order), and each worker's status. -/
structure PoolState where
  nextIndex : Nat
  completedCount : Nat
  failedCount : Nat
  claims : List Nat
  workers : List WStatus
deriving DecidableEq, Repr

/-- Pool start: counter and tallies zero, no claims, `w` idle workers. -/
def initPool (w : Nat) : PoolState :=
  { nextIndex := 0, completedCount := 0, failedCount := 0, claims := [],
    workers := List.replicate w WStatus.idle }

/-- The configured `CONCURRENCY` constant of `uploadFiles`. -/
def uploadConcurrency : Nat := 100

/-- One atomic action of the pool over `d` files, where `outcome i` tells
whether the upload of file `i` succeeds.  A worker claims
(`const currentIndex = nextIndex++` plus the bounds check, one synchronous
block), either obtaining a file index or breaking out of its loop; a
worker whose upload settles tallies the success or the caught failure and
loops back to claim again. -/
inductive PoolStep (d : Nat) (outcome : Nat → Bool) : PoolState → PoolState → Prop where
  | claimWork (s : PoolState) (w : Nat)
      (hw : s.workers.get? w = some WStatus.idle) (h : s.nextIndex < d) :
      PoolStep d outcome s
        { s with nextIndex := s.nextIndex + 1,
                 claims := s.claims ++ [s.nextIndex],
                 workers := s.workers.set w (WStatus.working s.nextIndex) }
  | claimDone (s : PoolState) (w : Nat)
      (hw : s.workers.get? w = some WStatus.idle) (h : d ≤ s.nextIndex) :
      PoolStep d outcome s
        { s with nextIndex := s.nextIndex + 1,
                 workers := s.workers.set w WStatus.done }
  | finishOk (s : PoolState) (w i : Nat)
      (hw : s.workers.get? w = some (WStatus.working i)) (ho : outcome i = true) :
      PoolStep d outcome s
        { s with completedCount := s.completedCount + 1,
                 workers := s.workers.set w WStatus.idle }
  | finishFail (s : PoolState) (w i : Nat)
      (hw : s.workers.get? w = some (WStatus.working i)) (ho : outcome i = false) :
      PoolStep d outcome s
        { s with failedCount := s.failedCount + 1,
                 workers := s.workers.set w WStatus.idle }

/-- States reachable by interleaving pool actions. -/
def PoolReachable (d : Nat) (outcome : Nat → Bool) : PoolState → PoolState → Prop :=
  Relation.ReflTransGen (PoolStep d outcome)

/-- Whether a worker currently holds a claimed file. -/
def isWorking : WStatus → Bool
  | WStatus.working _ => true
  | _ => false

/-- The pool run is complete: every worker broke out of its loop. -/
def allDone (s : PoolState) : Prop := ∀ st ∈ s.workers, st = WStatus.done

/-- Inductive invariant of the pool: worker count is fixed, the claimed
indices are exactly `0, …, min nextIndex d − 1` in order, the tallies plus
the in-flight uploads account for every claimed file, and a worker only
breaks out once the counter has passed `d`. -/
structure PoolInv (d w : Nat) (s : PoolState) : Prop where
  wlen : s.workers.length = w
  claims_eq : s.claims = List.range (min s.nextIndex d)
  tally : s.completedCount + s.failedCount + s.workers.countP isWorking
            = min s.nextIndex d
  done_next : WStatus.done ∈ s.workers → d ≤ s.nextIndex

/-! ## Deployment Orchestrator: `POST /deploy`

From `core/src/routes/deployments.ts` (the identical historical variant
lives inline in `core/index.ts`): validate the body with
`z.string().uuid()`, look the Project up, create a Deployment with status
`QUEUED`, respond `202` with the deployment id, then fire the ECS launch
in the background, logging (not surfacing) its failure. -/

/-- A Project row of the metadata store. -/
structure Project where
  id : String
  name : String
  gitURL : String
  subDomain : String
deriving DecidableEq, Repr

/-- Deployment status values of the state machine.  The dispatch route
only ever writes `QUEUED`; the remaining values exist in the schema for
later transitions. -/
inductive DeploymentStatus where
  | QUEUED
  | DISPATCHED
  | SUCCEEDED
  | FAILED
deriving DecidableEq, Repr

/-- A Deployment row.  `id` models the generated identity as a number
drawn from the store's fresh-id source. -/
structure Deployment where
  id : Nat
  projectId : String
  status : DeploymentStatus
deriving DecidableEq, Repr

/-- The relational metadata store: Project rows, Deployment rows, and the
fresh-id source for generated deployment identities. -/
structure Store where
  projects : List Project
  deployments : List Deployment
  nextDeploymentId : Nat
deriving DecidableEq, Repr

/-- Hexadecimal digit, either case. -/
def hexDigit (c : Char) : Bool :=
  c.isDigit || (('a' ≤ c) && (c ≤ 'f')) || (('A' ≤ c) && (c ≤ 'F'))

/-- The `z.string().uuid()` validator: 36 characters in the canonical
8-4-4-4-12 shape, dashes at positions 8, 13, 18 and 23, hex digits
elsewhere. -/
def isUuid (s : String) : Bool :=
  s.toList.length == 36 &&
    s.toList.enum.all fun p =>
      if p.1 == 8 || p.1 == 13 || p.1 == 18 || p.1 == 23 then p.2 == '-'
      else hexDigit p.2

/-- Observable actions of one `POST /deploy` request, in program order:
the Deployment row insert, the HTTP response (status code and the
deployment id when present), the background launch call, and its logged
outcome. -/
inductive DeployEvent where
  | createDeployment (id : Nat)
  | respond (code : Nat) (deploymentId : Option Nat)
  | launchAttempt (id : Nat)
  | launchSucceeded (id : Nat)
  | launchFailureLogged (id : Nat)
deriving DecidableEq, Repr

/-- The `POST /deploy` handler.  `body` is the `projectId` field of the
request body when present; `launchOk` is the eventual outcome of the
background `ecsClient.send`.  Returns the store after the request and the
ordered list of observable actions. -/
def postDeploy (store : Store) (body : Option String) (launchOk : Bool) :
    Store × List DeployEvent :=
  match body with
  | none => (store, [DeployEvent.respond 400 none])
  | some projectId =>
    if !isUuid projectId then (store, [DeployEvent.respond 400 none])
    else
      match store.projects.find? fun p => p.id == projectId with
      | none => (store, [DeployEvent.respond 404 none])
      | some _ =>
        let d : Deployment :=
          ⟨store.nextDeploymentId, projectId, DeploymentStatus.QUEUED⟩
        let store1 : Store :=
          ⟨store.projects, store.deployments ++ [d], store.nextDeploymentId + 1⟩
        (store1,
          [DeployEvent.createDeployment d.id,
           DeployEvent.respond 202 (some d.id),
           DeployEvent.launchAttempt d.id]
          ++ (if launchOk then [DeployEvent.launchSucceeded d.id]
              else [DeployEvent.launchFailureLogged d.id]))

/-! ## Log query: `GET /logs/:id`

From the logs route: `SELECT event_id, deployment_id, log, timestamp from
log_events where deployment_id = {deployment_id:String}` — a plain filter,
with no ORDER BY clause.  The sink is modelled as the list of persisted
rows in the order the sink returns them. -/

/-- The log query: all rows of the sink whose `deployment_id` matches, in
the sink's return order. -/
def queryLogs (sink : List LogEntry) (id : String) : List LogEntry :=
  sink.filter fun r => r.deployment_id == id

/-- Stated from the spec's words (`ordered by ingestion timestamp
ascending`), for comparison with `queryLogs`: successive rows have
non-decreasing timestamps. -/
def timestampsAscending (rows : List LogEntry) : Prop :=
  List.Chain' (fun a b => a.timestamp ≤ b.timestamp) rows

/-! ## Fan-out Relay bridge

The subscribe side is from `core/index.ts`: on `subscribe`, the socket
joins the named channel and gets a direct `Joined <channel>` confirmation.
The broadcast side of the relay is not in the repository sources (the
socket.io room broadcast capability).

Modelled from the spec: a publish on a channel is a best-effort broadcast
to the sockets currently joined to that channel only — no backlog, no
replay. -/

/-- An event at the relay: a socket subscribing to a channel, or a message
published on a channel. -/
inductive RelayEvent where
  | subscribe (sock : Nat) (channel : String)
  | publish (channel : String) (payload : String)
deriving DecidableEq, Repr

/-- Relay state: the (socket, channel) join pairs, the direct join
confirmations, and every delivered (socket, channel, payload) triple. -/
structure RelayState where
  rooms : List (Nat × String)
  joinedMsgs : List (Nat × String)
  delivered : List (Nat × String × String)
deriving DecidableEq, Repr

/-- The relay before any event. -/
def initRelay : RelayState := ⟨[], [], []⟩

/-- Sockets currently joined to channel `c`. -/
def roomMembers (s : RelayState) (c : String) : List Nat :=
  (s.rooms.filter fun p => p.2 == c).map (·.1)

/-- One relay event.  Subscribe joins the socket to the channel (a second
join of the same pair is a no-op, as for socket.io rooms) and emits the
`Joined` confirmation.  Modelled from the spec: publish delivers the
payload to exactly the sockets joined to the channel at publish time. -/
def relayStep (s : RelayState) (e : RelayEvent) : RelayState :=
  match e with
  | RelayEvent.subscribe sock c =>
    { s with
      rooms := if (sock, c) ∈ s.rooms then s.rooms else s.rooms ++ [(sock, c)],
      joinedMsgs := s.joinedMsgs ++ [(sock, "Joined " ++ c)] }
  | RelayEvent.publish c m =>
    { s with
      delivered := s.delivered ++ (roomMembers s c).map fun sock => (sock, c, m) }

/-- The relay state after a sequence of events. -/
def relayRun (es : List RelayEvent) : RelayState := es.foldl relayStep initRelay

/-! ## Theorems: Log Ingestion Consumer (C1, C2) -/

/-- The per-message loop resolves exactly the offsets of the records it was
given whose payload is non-null, in order. -/
theorem processValid_resolved (l : List BrokerRecord) (baseId now : Nat) :
    (processValid l baseId now).2
      = (l.filter fun r => r.value.isSome).map (·.offset) := by
  induction l generalizing baseId with
  | nil => rfl
  | cons r rest ih =>
    cases hv : r.value with
    | none => simp [processValid, hv, List.filter_cons, ih]
    | some v =>
      cases v with
      | malformed raw => simp [processValid, hv, List.filter_cons, ih]
      | obj f =>
        by_cases hf : (fieldTruthy f "DEPLOYEMENT_ID" && fieldTruthy f "log") = true
        · simp [processValid, hv, hf, List.filter_cons, ih]
        · simp [processValid, hv, hf, List.filter_cons, ih]

/-- The per-message loop collects exactly one LogEvent per well-formed
record. -/
theorem processValid_length (l : List BrokerRecord) (baseId now : Nat) :
    (processValid l baseId now).1.length = l.countP wellFormed := by
  induction l generalizing baseId with
  | nil => rfl
  | cons r rest ih =>
    cases hv : r.value with
    | none => simp [processValid, hv, List.countP_cons, wellFormed, ih]
    | some v =>
      cases v with
      | malformed raw => simp [processValid, hv, List.countP_cons, wellFormed, ih]
      | obj f =>
        by_cases hf : (fieldTruthy f "DEPLOYEMENT_ID" && fieldTruthy f "log") = true
        · simp [processValid, hv, hf, List.countP_cons, wellFormed, ih]
        · simp [processValid, hv, hf, List.countP_cons, wellFormed, ih]

/-- A well-formed record has a non-null payload. -/
theorem wellFormed_isSome {r : BrokerRecord} (h : wellFormed r = true) :
    r.value.isSome = true := by
  cases hv : r.value with
  | none => rw [wellFormed, hv] at h; exact absurd h (by simp)
  | some v => rfl

/-- Counting well-formed records commutes with dropping null payloads. -/
theorem countP_wellFormed_filter (l : List BrokerRecord) :
    (l.filter fun r => r.value.isSome).countP wellFormed = l.countP wellFormed := by
  induction l with
  | nil => rfl
  | cons r rest ih =>
    by_cases hs : r.value.isSome = true
    · simp [List.filter_cons, hs, List.countP_cons, ih]
    · have hw : wellFormed r = false := by
        cases hv : r.value with
        | none => rw [wellFormed, hv]
        | some v => rw [hv] at hs; exact absurd rfl hs
      simp [List.filter_cons, hs, List.countP_cons, ih, hw]

/-- C1 (amended): for a batch of N broker records of which M are malformed,
a run of the batch handler whose bulk write succeeds persists exactly N − M
LogEvents, and resolves exactly the positions of the records with non-null
payload, in order — records with a null payload are skipped without their
position ever being resolved. -/
theorem ingestion_batch_tally (messages : List BrokerRecord) (baseId now : Nat) :
    (eachBatch messages true baseId now).inserted.length
      = messages.length - messages.countP (fun r => !wellFormed r)
    ∧ (eachBatch messages true baseId now).resolved
      = (messages.filter fun r => r.value.isSome).map (·.offset) := by
  have hN : messages.countP wellFormed
      = messages.length - messages.countP (fun r => !wellFormed r) := by
    have h0 := List.length_eq_countP_add_countP wellFormed messages
    simp only [decide_not, Bool.decide_eq_true] at h0
    omega
  by_cases hvm : (messages.filter fun m => m.value.isSome).length = 0
  · have hnil : (messages.filter fun m => m.value.isSome) = [] :=
      List.length_eq_zero.mp hvm
    have hc : messages.countP wellFormed = 0 := by
      rw [← countP_wellFormed_filter, hnil]; rfl
    constructor
    · simp [eachBatch, hvm, ← hN, hc]
    · simp [eachBatch, hvm, hnil]
  · constructor
    · rw [← hN, ← countP_wellFormed_filter]
      simp only [eachBatch, hvm, if_false, Bool.not_true, Bool.and_false,
        Bool.false_eq_true]
      simp [processValid_length]
    · simp only [eachBatch, hvm, if_false, Bool.not_true, Bool.and_false,
        Bool.false_eq_true]
      simp [processValid_resolved, List.filter_filter]

/-- C1 (counterexample): a batch consisting of one record with a null
payload (N = 1, M = 1) does not get all N positions acknowledged — the
handler filters the record out before the per-message loop and returns
without ever resolving its offset. -/
theorem ingestion_batch_tally_counterexample :
    ¬ (∀ r ∈ [BrokerRecord.mk none 5],
        r.offset ∈ (eachBatch [BrokerRecord.mk none 5] true 0 0).resolved) := by
  decide

/-- C2: for any batch holding at least one well-formed record, the handler
commits its read position if and only if the bulk write to the Log Sink
succeeds; the post-commit keep-alive is sent exactly when the commit runs,
and on a failed write nothing is persisted. -/
theorem ingestion_commit_iff_insert (messages : List BrokerRecord)
    (insertOk : Bool) (baseId now : Nat)
    (h : 0 < messages.countP wellFormed) :
    ((eachBatch messages insertOk baseId now).committed = true ↔ insertOk = true)
    ∧ (eachBatch messages insertOk baseId now).heartbeat
        = (eachBatch messages insertOk baseId now).committed
    ∧ (insertOk = false → (eachBatch messages insertOk baseId now).inserted = []) := by
  have hflt : 0 < (messages.filter fun m => m.value.isSome).countP wellFormed := by
    rw [countP_wellFormed_filter]; exact h
  have hvm : ¬ (messages.filter fun m => m.value.isSome).length = 0 := by
    intro h0
    rw [List.length_eq_zero.mp h0] at hflt
    simp at hflt
  have hlen : 0 < (processValid (messages.filter fun m => m.value.isSome)
      baseId now).1.length := by
    rw [processValid_length]; exact hflt
  cases insertOk with
  | true =>
    refine ⟨?_, ?_, ?_⟩
    · simp [eachBatch, hvm]
    · simp [eachBatch, hvm]
    · intro hcontra; exact absurd hcontra (by simp)
  | false =>
    refine ⟨?_, ?_, ?_⟩
    · simp [eachBatch, hvm, hlen]
    · simp [eachBatch, hvm, hlen]
    · intro _; simp [eachBatch, hvm, hlen]

/-- Witness for C2 at the one-record well-formed batch with a succeeding
sink write. -/
theorem ingestion_commit_iff_insert_witness :
    0 < ([BrokerRecord.mk (some (.obj [("DEPLOYEMENT_ID", "D1"), ("log", "a")])) 0]
          : List BrokerRecord).countP wellFormed
    ∧ (((eachBatch [BrokerRecord.mk (some (.obj [("DEPLOYEMENT_ID", "D1"), ("log", "a")])) 0]
          true 0 0).committed = true) ↔ (true = true))
    ∧ (eachBatch [BrokerRecord.mk (some (.obj [("DEPLOYEMENT_ID", "D1"), ("log", "a")])) 0]
        true 0 0).heartbeat
      = (eachBatch [BrokerRecord.mk (some (.obj [("DEPLOYEMENT_ID", "D1"), ("log", "a")])) 0]
          true 0 0).committed
    ∧ (true = false → (eachBatch
        [BrokerRecord.mk (some (.obj [("DEPLOYEMENT_ID", "D1"), ("log", "a")])) 0]
        true 0 0).inserted = []) :=
  ⟨by decide, ingestion_commit_iff_insert _ true 0 0 (by decide)⟩

/-! ## Theorems: Build Executor log identity (C3) -/

/-- The record `publishLog` actually puts on the wire: the launch
environment carries the deployment id under key `DEPLOYEMENT_ID`, the
executor reads `DEPLOYMENT_ID` (absent, hence `undefined`), and
`JSON.stringify` drops the `undefined` field — so the published object has
only `PROJECT_ID` and `log` fields. -/
theorem publishLogValue_launchEnvironment (g p d t : String) :
    publishLogValue (launchEnvironment g p d) t
      = .obj [("PROJECT_ID", p), ("log", t)] := by
  simp [publishLogValue, launchEnvironment, envGet, List.find?]

/-- C3 (code evaluation): every log record the Build Executor publishes via
`publishLog` fails the consumer's required-field validation — the consumer
reads field `DEPLOYEMENT_ID`, which the executor never writes — so the
record is dropped as malformed and never persisted, whatever the launch
environment and log text. -/
theorem executor_log_dropped (g p d t : String) (off baseId now : Nat) :
    wellFormed ⟨some (publishLogValue (launchEnvironment g p d) t), off⟩ = false
    ∧ (eachBatch [⟨some (publishLogValue (launchEnvironment g p d) t), off⟩]
        true baseId now).inserted = [] := by
  have hw : wellFormed
      ⟨some (publishLogValue (launchEnvironment g p d) t), off⟩ = false := by
    rw [publishLogValue_launchEnvironment]
    simp [wellFormed, fieldTruthy, jsGet, List.find?]
  refine ⟨hw, ?_⟩
  rw [publishLogValue_launchEnvironment]
  have hft : fieldTruthy [("PROJECT_ID", p), ("log", t)] "DEPLOYEMENT_ID" = false := by
    simp [fieldTruthy, jsGet, List.find?]
  simp [eachBatch, processValid, List.filter, hft]


/-! ## Theorems: Bounded Uploader (C4) -/

/-- Replacing the element at an occupied position shifts a Boolean count by
the counted weight of the old and new elements. -/
theorem countP_set {α : Type} (l : List α) (w : Nat) (a b : α) (p : α → Bool)
    (h : l.get? w = some a) :
    (l.set w b).countP p + (if p a then 1 else 0)
      = l.countP p + (if p b then 1 else 0) := by
  induction l generalizing w with
  | nil => simp at h
  | cons x xs ih =>
    cases w with
    | zero =>
      rw [List.get?_cons_zero] at h
      injection h with h
      subst h
      simp only [List.set_cons_zero, List.countP_cons]
      omega
    | succ w =>
      rw [List.get?_cons_succ] at h
      have := ih w h
      simp only [List.set_cons_succ, List.countP_cons]
      omega

/-- Every pool action preserves the pool invariant. -/
theorem poolInv_step {d w : Nat} {outcome : Nat → Bool} {s s' : PoolState}
    (hs : PoolInv d w s) (hstep : PoolStep d outcome s s') : PoolInv d w s' := by
  obtain ⟨wlen, claims_eq, tally, done_next⟩ := hs
  cases hstep with
  | claimWork w0 hw h =>
    refine ⟨by simpa using wlen, ?_, ?_, ?_⟩
    · show s.claims ++ [s.nextIndex] = List.range (min (s.nextIndex + 1) d)
      rw [claims_eq, Nat.min_eq_left (Nat.le_of_lt h), Nat.min_eq_left h]
      simp [List.range_succ]
    · show s.completedCount + s.failedCount
          + (s.workers.set w0 (WStatus.working s.nextIndex)).countP isWorking
          = min (s.nextIndex + 1) d
      have hc := countP_set s.workers w0 WStatus.idle
        (WStatus.working s.nextIndex) isWorking hw
      simp [isWorking] at hc
      rw [Nat.min_eq_left (Nat.le_of_lt h)] at tally
      rw [Nat.min_eq_left h]
      omega
    · intro hd
      rcases List.mem_or_eq_of_mem_set hd with hmem | heq
      · exact Nat.le_trans (done_next hmem) (Nat.le_succ _)
      · exact WStatus.noConfusion heq
  | claimDone w0 hw h =>
    refine ⟨by simpa using wlen, ?_, ?_, ?_⟩
    · show s.claims = List.range (min (s.nextIndex + 1) d)
      rw [claims_eq, Nat.min_eq_right h,
        Nat.min_eq_right (Nat.le_trans h (Nat.le_succ _))]
    · show s.completedCount + s.failedCount
          + (s.workers.set w0 WStatus.done).countP isWorking
          = min (s.nextIndex + 1) d
      have hc := countP_set s.workers w0 WStatus.idle WStatus.done isWorking hw
      simp [isWorking] at hc
      rw [Nat.min_eq_right h] at tally
      rw [Nat.min_eq_right (Nat.le_trans h (Nat.le_succ _))]
      omega
    · intro _
      exact Nat.le_trans h (Nat.le_succ _)
  | finishOk w0 i hw ho =>
    refine ⟨by simpa using wlen, claims_eq, ?_, ?_⟩
    · show s.completedCount + 1 + s.failedCount
          + (s.workers.set w0 WStatus.idle).countP isWorking
          = min s.nextIndex d
      have hc := countP_set s.workers w0 (WStatus.working i) WStatus.idle isWorking hw
      simp [isWorking] at hc
      omega
    · intro hd
      rcases List.mem_or_eq_of_mem_set hd with hmem | heq
      · exact done_next hmem
      · exact WStatus.noConfusion heq
  | finishFail w0 i hw ho =>
    refine ⟨by simpa using wlen, claims_eq, ?_, ?_⟩
    · show s.completedCount + (s.failedCount + 1)
          + (s.workers.set w0 WStatus.idle).countP isWorking
          = min s.nextIndex d
      have hc := countP_set s.workers w0 (WStatus.working i) WStatus.idle isWorking hw
      simp [isWorking] at hc
      omega
    · intro hd
      rcases List.mem_or_eq_of_mem_set hd with hmem | heq
      · exact done_next hmem
      · exact WStatus.noConfusion heq

/-- The initial pool state satisfies the invariant. -/
theorem poolInv_init (d w : Nat) : PoolInv d w (initPool w) := by
  refine ⟨by simp [initPool], by simp [initPool], ?_, ?_⟩
  · simp [initPool, List.countP_replicate, isWorking]
  · intro hd
    exact absurd (List.eq_of_mem_replicate hd) (by simp)

/-- The pool invariant holds in every reachable state. -/
theorem poolInv_reachable {d w : Nat} {outcome : Nat → Bool} {s : PoolState}
    (h : PoolReachable d outcome (initPool w) s) : PoolInv d w s := by
  induction h with
  | refl => exact poolInv_init d w
  | tail _ hstep ih => exact poolInv_step ih hstep

/-- C4: over `d` discovered files with `min CONCURRENCY d` workers, in any
reachable state of the pool: if the run is complete, the claimed indices
are exactly `0, …, d−1` — each file claimed exactly once — and
`completed + failed = d`; and an incomplete run can always take a step
(no action throws or blocks, whatever the per-file outcomes). -/
theorem uploader_pool_correct (d : Nat) (outcome : Nat → Bool) (hd : 0 < d)
    (s : PoolState)
    (h : PoolReachable d outcome (initPool (min uploadConcurrency d)) s) :
    (allDone s → s.claims = List.range d
        ∧ s.completedCount + s.failedCount = d)
    ∧ (¬ allDone s → ∃ t, PoolStep d outcome s t) := by
  have inv := poolInv_reachable h
  constructor
  · intro hall
    have hw0 : 0 < min uploadConcurrency d := by
      rw [Nat.lt_min]
      exact ⟨by simp [uploadConcurrency], hd⟩
    have hne : s.workers ≠ [] := by
      intro h0
      have hlen := inv.wlen
      rw [h0] at hlen
      simp at hlen
      omega
    obtain ⟨a, ha⟩ := List.exists_mem_of_ne_nil s.workers hne
    have hdone : WStatus.done ∈ s.workers := by
      rw [← hall a ha]; exact ha
    have hnext : d ≤ s.nextIndex := inv.done_next hdone
    have hmin : min s.nextIndex d = d := Nat.min_eq_right hnext
    have hcount : s.workers.countP isWorking = 0 := by
      rw [List.countP_eq_zero]
      intro b hb
      rw [hall b hb]
      simp [isWorking]
    refine ⟨by rw [inv.claims_eq, hmin], ?_⟩
    have htally := inv.tally
    rw [hmin, hcount] at htally
    omega
  · intro hnall
    have hex : ∃ st, st ∈ s.workers ∧ st ≠ WStatus.done := by
      by_contra hc
      push_neg at hc
      exact hnall fun st hst => hc st hst
    obtain ⟨st, hmem, hnd⟩ := hex
    obtain ⟨j, hj⟩ := List.mem_iff_get?.mp hmem
    cases st with
    | done => exact absurd rfl hnd
    | idle =>
      by_cases hlt : s.nextIndex < d
      · exact ⟨_, PoolStep.claimWork s j hj hlt⟩
      · exact ⟨_, PoolStep.claimDone s j hj (Nat.le_of_not_lt hlt)⟩
    | working i =>
      cases ho : outcome i with
      | true => exact ⟨_, PoolStep.finishOk s j i hj ho⟩
      | false => exact ⟨_, PoolStep.finishFail s j i hj ho⟩

/-- Witness for C4: a concrete complete run over one file whose upload
fails — one worker claims file 0, tallies the failure, and breaks out —
reached by an explicit step chain; the tallies still account for the file
and the run completed. -/
theorem uploader_pool_correct_witness :
    0 < 1
    ∧ ((allDone (⟨2, 0, 1, [0], [WStatus.done]⟩ : PoolState) →
        (⟨2, 0, 1, [0], [WStatus.done]⟩ : PoolState).claims = List.range 1
        ∧ 0 + 1 = 1)
      ∧ (¬ allDone (⟨2, 0, 1, [0], [WStatus.done]⟩ : PoolState) →
          ∃ t, PoolStep 1 (fun _ => false)
            (⟨2, 0, 1, [0], [WStatus.done]⟩ : PoolState) t)) := by
  refine ⟨by decide, ?_⟩
  have h01 : PoolStep 1 (fun _ => false) (initPool (min uploadConcurrency 1))
      (⟨1, 0, 0, [0], [WStatus.working 0]⟩ : PoolState) :=
    PoolStep.claimWork (initPool (min uploadConcurrency 1)) 0 (by decide) (by decide)
  have h12 : PoolStep 1 (fun _ => false)
      (⟨1, 0, 0, [0], [WStatus.working 0]⟩ : PoolState)
      (⟨1, 0, 1, [0], [WStatus.idle]⟩ : PoolState) :=
    PoolStep.finishFail _ 0 0 (by decide) rfl
  have h23 : PoolStep 1 (fun _ => false)
      (⟨1, 0, 1, [0], [WStatus.idle]⟩ : PoolState)
      (⟨2, 0, 1, [0], [WStatus.done]⟩ : PoolState) :=
    PoolStep.claimDone _ 0 (by decide) (by decide)
  exact uploader_pool_correct 1 (fun _ => false) (by decide) _
    (Relation.ReflTransGen.tail
      (Relation.ReflTransGen.tail
        (Relation.ReflTransGen.tail Relation.ReflTransGen.refl h01) h12) h23)

/-! ## Theorems: Deployment Orchestrator (C5, C6, C8, C10) -/

/-- C5: for every valid dispatch request, the handler's action trace starts
with the Deployment insert (status `QUEUED`, visible in the resulting
store), then the `202` response carrying the deployment id, then the
launch attempt — creation and response strictly precede any launch. -/
theorem deploy_create_before_launch (store : Store) (pid : String)
    (launchOk : Bool) (proj : Project)
    (hval : isUuid pid = true)
    (hfind : store.projects.find? (fun p => p.id == pid) = some proj) :
    (postDeploy store (some pid) launchOk).1.deployments
      = store.deployments
        ++ [⟨store.nextDeploymentId, pid, DeploymentStatus.QUEUED⟩]
    ∧ ∃ rest, (postDeploy store (some pid) launchOk).2
        = DeployEvent.createDeployment store.nextDeploymentId
          :: DeployEvent.respond 202 (some store.nextDeploymentId)
          :: DeployEvent.launchAttempt store.nextDeploymentId
          :: rest := by
  refine ⟨by simp [postDeploy, hval, hfind], ?_⟩
  cases launchOk with
  | true =>
    exact ⟨[DeployEvent.launchSucceeded store.nextDeploymentId],
      by simp [postDeploy, hval, hfind]⟩
  | false =>
    exact ⟨[DeployEvent.launchFailureLogged store.nextDeploymentId],
      by simp [postDeploy, hval, hfind]⟩

/-- Witness for C5 at a store holding one Project and a fresh valid
dispatch for it. -/
theorem deploy_create_before_launch_witness :
    isUuid "00000000-0000-0000-0000-000000000000" = true
    ∧ (Store.mk [⟨"00000000-0000-0000-0000-000000000000", "p", "g", "s"⟩] [] 0).projects.find?
        (fun p => p.id == "00000000-0000-0000-0000-000000000000")
        = some (Project.mk "00000000-0000-0000-0000-000000000000" "p" "g" "s")
    ∧ ((postDeploy (Store.mk [⟨"00000000-0000-0000-0000-000000000000", "p", "g", "s"⟩] [] 0)
          (some "00000000-0000-0000-0000-000000000000") true).1.deployments
        = [] ++ [⟨0, "00000000-0000-0000-0000-000000000000", DeploymentStatus.QUEUED⟩]
      ∧ ∃ rest, (postDeploy (Store.mk [⟨"00000000-0000-0000-0000-000000000000", "p", "g", "s"⟩] [] 0)
          (some "00000000-0000-0000-0000-000000000000") true).2
        = DeployEvent.createDeployment 0
          :: DeployEvent.respond 202 (some 0)
          :: DeployEvent.launchAttempt 0
          :: rest) :=
  ⟨by decide, by decide,
    deploy_create_before_launch _ _ true
      (Project.mk "00000000-0000-0000-0000-000000000000" "p" "g" "s")
      (by decide) (by decide)⟩

/-- C6: when the background launch fails, the handler logs the failure as
its final action, the created row stays in the store with status `QUEUED`
(no rollback, no modification), and the only response in the trace is the
already-formed `202` with the deployment id — no error reaches the
caller. -/
theorem deploy_launch_failure_leaves_queued (store : Store) (pid : String)
    (proj : Project) (hval : isUuid pid = true)
    (hfind : store.projects.find? (fun p => p.id == pid) = some proj) :
    (postDeploy store (some pid) false).1.projects = store.projects
    ∧ (postDeploy store (some pid) false).1.deployments
        = store.deployments
          ++ [⟨store.nextDeploymentId, pid, DeploymentStatus.QUEUED⟩]
    ∧ (postDeploy store (some pid) false).2
        = [DeployEvent.createDeployment store.nextDeploymentId,
           DeployEvent.respond 202 (some store.nextDeploymentId),
           DeployEvent.launchAttempt store.nextDeploymentId,
           DeployEvent.launchFailureLogged store.nextDeploymentId] := by
  exact ⟨by simp [postDeploy, hval, hfind], by simp [postDeploy, hval, hfind],
    by simp [postDeploy, hval, hfind]⟩

/-- Witness for C6 at the same one-Project store with a failing launch. -/
theorem deploy_launch_failure_leaves_queued_witness :
    isUuid "00000000-0000-0000-0000-000000000000" = true
    ∧ (Store.mk [⟨"00000000-0000-0000-0000-000000000000", "p", "g", "s"⟩] [] 0).projects.find?
        (fun p => p.id == "00000000-0000-0000-0000-000000000000")
        = some (Project.mk "00000000-0000-0000-0000-000000000000" "p" "g" "s")
    ∧ ((postDeploy (Store.mk [⟨"00000000-0000-0000-0000-000000000000", "p", "g", "s"⟩] [] 0)
          (some "00000000-0000-0000-0000-000000000000") false).1.projects
        = [⟨"00000000-0000-0000-0000-000000000000", "p", "g", "s"⟩]
      ∧ (postDeploy (Store.mk [⟨"00000000-0000-0000-0000-000000000000", "p", "g", "s"⟩] [] 0)
          (some "00000000-0000-0000-0000-000000000000") false).1.deployments
        = [] ++ [⟨0, "00000000-0000-0000-0000-000000000000", DeploymentStatus.QUEUED⟩]
      ∧ (postDeploy (Store.mk [⟨"00000000-0000-0000-0000-000000000000", "p", "g", "s"⟩] [] 0)
          (some "00000000-0000-0000-0000-000000000000") false).2
        = [DeployEvent.createDeployment 0,
           DeployEvent.respond 202 (some 0),
           DeployEvent.launchAttempt 0,
           DeployEvent.launchFailureLogged 0]) :=
  ⟨by decide, by decide,
    deploy_launch_failure_leaves_queued _ _
      (Project.mk "00000000-0000-0000-0000-000000000000" "p" "g" "s")
      (by decide) (by decide)⟩

/-- C8: a dispatch whose precondition fails has no side effect: a missing
or malformed projectId yields the `400` validation response with the store
untouched, and a well-formed projectId naming no Project yields the `404`
response with the store untouched. -/
theorem deploy_failure_no_side_effect (store : Store) (launchOk : Bool) :
    postDeploy store none launchOk = (store, [DeployEvent.respond 400 none])
    ∧ (∀ pid, isUuid pid = false →
        postDeploy store (some pid) launchOk
          = (store, [DeployEvent.respond 400 none]))
    ∧ (∀ pid, isUuid pid = true →
        store.projects.find? (fun p => p.id == pid) = none →
        postDeploy store (some pid) launchOk
          = (store, [DeployEvent.respond 404 none])) := by
  refine ⟨rfl, ?_, ?_⟩
  · intro pid hval
    simp [postDeploy, hval]
  · intro pid hval hfind
    simp [postDeploy, hval, hfind]

/-- Witness for C8: the malformed id "not-a-uuid" and an absent (but
well-formed) id against a concrete one-Project store. -/
theorem deploy_failure_no_side_effect_witness :
    postDeploy (Store.mk [⟨"00000000-0000-0000-0000-000000000000", "p", "g", "s"⟩] [] 0)
        none true
      = (Store.mk [⟨"00000000-0000-0000-0000-000000000000", "p", "g", "s"⟩] [] 0,
         [DeployEvent.respond 400 none])
    ∧ (isUuid "not-a-uuid" = false
      ∧ postDeploy (Store.mk [⟨"00000000-0000-0000-0000-000000000000", "p", "g", "s"⟩] [] 0)
          (some "not-a-uuid") true
        = (Store.mk [⟨"00000000-0000-0000-0000-000000000000", "p", "g", "s"⟩] [] 0,
           [DeployEvent.respond 400 none]))
    ∧ (isUuid "11111111-1111-1111-1111-111111111111" = true
      ∧ (Store.mk [⟨"00000000-0000-0000-0000-000000000000", "p", "g", "s"⟩] [] 0).projects.find?
          (fun p => p.id == "11111111-1111-1111-1111-111111111111") = none
      ∧ postDeploy (Store.mk [⟨"00000000-0000-0000-0000-000000000000", "p", "g", "s"⟩] [] 0)
          (some "11111111-1111-1111-1111-111111111111") true
        = (Store.mk [⟨"00000000-0000-0000-0000-000000000000", "p", "g", "s"⟩] [] 0,
           [DeployEvent.respond 404 none])) :=
  ⟨(deploy_failure_no_side_effect _ true).1,
   ⟨by decide, (deploy_failure_no_side_effect _ true).2.1 _ (by decide)⟩,
   ⟨by decide, by decide,
    (deploy_failure_no_side_effect _ true).2.2 _ (by decide) (by decide)⟩⟩

/-- C10: dispatch creates a `QUEUED` Deployment unconditionally — no check
for an in-flight deployment of the same Project — so two valid dispatches
for one Project leave two distinct simultaneously `QUEUED` Deployment
rows. -/
theorem deploy_no_inflight_check (store : Store) (pid : String)
    (proj : Project) (launchOk launchOk2 : Bool)
    (hval : isUuid pid = true)
    (hfind : store.projects.find? (fun p => p.id == pid) = some proj) :
    ∃ d1 d2 : Deployment,
      d1 ∈ (postDeploy (postDeploy store (some pid) launchOk).1
              (some pid) launchOk2).1.deployments
      ∧ d2 ∈ (postDeploy (postDeploy store (some pid) launchOk).1
              (some pid) launchOk2).1.deployments
      ∧ d1.id ≠ d2.id
      ∧ d1.projectId = pid ∧ d2.projectId = pid
      ∧ d1.status = DeploymentStatus.QUEUED
      ∧ d2.status = DeploymentStatus.QUEUED := by
  refine ⟨⟨store.nextDeploymentId, pid, DeploymentStatus.QUEUED⟩,
          ⟨store.nextDeploymentId + 1, pid, DeploymentStatus.QUEUED⟩,
          ?_, ?_, by simp, rfl, rfl, rfl, rfl⟩
  · simp [postDeploy, hval, hfind]
  · simp [postDeploy, hval, hfind]

/-- Witness for C10 at the one-Project store: both deployments of the
double dispatch exist, `QUEUED`, with distinct ids. -/
theorem deploy_no_inflight_check_witness :
    isUuid "00000000-0000-0000-0000-000000000000" = true
    ∧ (Store.mk [⟨"00000000-0000-0000-0000-000000000000", "p", "g", "s"⟩] [] 0).projects.find?
        (fun p => p.id == "00000000-0000-0000-0000-000000000000")
        = some (Project.mk "00000000-0000-0000-0000-000000000000" "p" "g" "s")
    ∧ (∃ d1 d2 : Deployment,
        d1 ∈ (postDeploy (postDeploy
                (Store.mk [⟨"00000000-0000-0000-0000-000000000000", "p", "g", "s"⟩] [] 0)
                (some "00000000-0000-0000-0000-000000000000") true).1
                (some "00000000-0000-0000-0000-000000000000") true).1.deployments
        ∧ d2 ∈ (postDeploy (postDeploy
                (Store.mk [⟨"00000000-0000-0000-0000-000000000000", "p", "g", "s"⟩] [] 0)
                (some "00000000-0000-0000-0000-000000000000") true).1
                (some "00000000-0000-0000-0000-000000000000") true).1.deployments
        ∧ d1.id ≠ d2.id
        ∧ d1.projectId = "00000000-0000-0000-0000-000000000000"
        ∧ d2.projectId = "00000000-0000-0000-0000-000000000000"
        ∧ d1.status = DeploymentStatus.QUEUED
        ∧ d2.status = DeploymentStatus.QUEUED) :=
  ⟨by decide, by decide,
    deploy_no_inflight_check _ _
      (Project.mk "00000000-0000-0000-0000-000000000000" "p" "g" "s")
      true true (by decide) (by decide)⟩

/-! ## Theorems: log query (C7) -/

/-- C7 (counterexample): a sink whose two rows for deployment `D1` come
back with timestamps 2 then 1 is returned by the query in that same order —
the query has no ORDER BY, so the result is not ordered by ingestion
timestamp ascending. -/
theorem queryLogs_not_ordered :
    ¬ timestampsAscending
        (queryLogs [⟨0, "D1", "a", 2⟩, ⟨1, "D1", "b", 1⟩] "D1") := by
  simp [timestampsAscending, queryLogs]

/-- C7 (amended): the query returns exactly the persisted LogEvents of the
requested deployment — every matching row, nothing else — in the sink's
return order (a sublist of the sink); no ordering by timestamp is
guaranteed. -/
theorem queryLogs_complete (sink : List LogEntry) (id : String) :
    (∀ r, r ∈ queryLogs sink id ↔ (r ∈ sink ∧ r.deployment_id = id))
    ∧ (queryLogs sink id).Sublist sink := by
  refine ⟨?_, List.filter_sublist _⟩
  intro r
  simp [queryLogs, List.mem_filter]

/-! ## Theorems: Fan-out Relay (C9) -/

/-- A subscribe event adds exactly its (socket, channel) pair to the room:
membership after the step is membership before, or being that pair. -/
theorem roomMembers_subscribe (st : RelayState) (s2 sock : Nat) (c2 c : String) :
    sock ∈ roomMembers (relayStep st (RelayEvent.subscribe s2 c2)) c
      ↔ sock ∈ roomMembers st c ∨ (sock = s2 ∧ c2 = c) := by
  by_cases hmem : (s2, c2) ∈ st.rooms
  · simp only [relayStep, if_pos hmem]
    constructor
    · exact fun h => Or.inl h
    · rintro (h | ⟨rfl, rfl⟩)
      · exact h
      · simp only [roomMembers, List.mem_map]
        exact ⟨_, List.mem_filter.mpr ⟨hmem, by simp⟩, rfl⟩
  · simp only [relayStep, if_neg hmem, roomMembers, List.filter_append,
      List.map_append, List.mem_append]
    by_cases hc : c2 = c
    · subst hc
      simp
    · have hnil : ([(s2, c2)] : List (Nat × String)).filter
          (fun p => p.2 == c) = [] := by
        simp [hc]
      simp [hnil, hc]

/-- A publish event leaves the rooms unchanged. -/
theorem rooms_publish (st : RelayState) (c m : String) :
    (relayStep st (RelayEvent.publish c m)).rooms = st.rooms := rfl

/-- After running a list of relay events from any starting state, a socket
is in a channel's room exactly when it started there or subscribed to the
channel during the run. -/
theorem roomMembers_foldl (es : List RelayEvent) (st : RelayState)
    (sock : Nat) (c : String) :
    sock ∈ roomMembers (es.foldl relayStep st) c
      ↔ sock ∈ roomMembers st c ∨ RelayEvent.subscribe sock c ∈ es := by
  induction es generalizing st with
  | nil => simp
  | cons e rest ih =>
    rw [List.foldl_cons, ih]
    cases e with
    | publish c2 m =>
      have hr : roomMembers (relayStep st (RelayEvent.publish c2 m)) c
          = roomMembers st c := rfl
      simp [hr]
    | subscribe s2 c2 =>
      rw [roomMembers_subscribe]
      simp only [List.mem_cons]
      constructor
      · rintro ((h | ⟨rfl, rfl⟩) | h)
        · exact Or.inl h
        · exact Or.inr (Or.inl rfl)
        · exact Or.inr (Or.inr h)
      · rintro (h | (h | h))
        · exact Or.inl (Or.inl h)
        · rw [RelayEvent.subscribe.injEq] at h
          exact Or.inl (Or.inr ⟨h.1, h.2.symm⟩)
        · exact Or.inr h

/-- C9: after any event sequence, the members of a channel are exactly the
sockets that subscribed to it; a publish appends deliveries to exactly the
current members at publish time; a socket that never subscribed to the
channel beforehand is not among them (no backlog for late joiners); and a
subscribe event by itself never delivers any published payload. -/
theorem fanout_no_backlog (es : List RelayEvent) (c m : String) (sock : Nat)
    (h : RelayEvent.subscribe sock c ∉ es) :
    (∀ s2, s2 ∈ roomMembers (relayRun es) c ↔ RelayEvent.subscribe s2 c ∈ es)
    ∧ (relayStep (relayRun es) (RelayEvent.publish c m)).delivered
        = (relayRun es).delivered
          ++ (roomMembers (relayRun es) c).map (fun s2 => (s2, c, m))
    ∧ (∀ x ∈ (roomMembers (relayRun es) c).map (fun s2 => (s2, c, m)),
        x.1 ≠ sock)
    ∧ (∀ st : RelayState,
        (relayStep st (RelayEvent.subscribe sock c)).delivered = st.delivered) := by
  have hmembers : ∀ s2, s2 ∈ roomMembers (relayRun es) c
      ↔ RelayEvent.subscribe s2 c ∈ es := by
    intro s2
    rw [relayRun, roomMembers_foldl]
    simp [initRelay, roomMembers]
  refine ⟨hmembers, rfl, ?_, fun st => rfl⟩
  intro x hx
  rw [List.mem_map] at hx
  obtain ⟨s2, hs2, rfl⟩ := hx
  intro hcontra
  simp only at hcontra
  subst hcontra
  exact h ((hmembers s2).mp hs2)

/-- Witness for C9: socket 2 never subscribed to channel `D1` during the
run in which socket 1 did; the publish delivers only to socket 1. -/
theorem fanout_no_backlog_witness :
    (RelayEvent.subscribe 2 "D1" ∉ [RelayEvent.subscribe 1 "D1"])
    ∧ ((∀ s2, s2 ∈ roomMembers (relayRun [RelayEvent.subscribe 1 "D1"]) "D1"
          ↔ RelayEvent.subscribe s2 "D1" ∈ [RelayEvent.subscribe 1 "D1"])
      ∧ (relayStep (relayRun [RelayEvent.subscribe 1 "D1"])
            (RelayEvent.publish "D1" "x")).delivered
          = (relayRun [RelayEvent.subscribe 1 "D1"]).delivered
            ++ (roomMembers (relayRun [RelayEvent.subscribe 1 "D1"]) "D1").map
                (fun s2 => (s2, "D1", "x"))
      ∧ (∀ x ∈ (roomMembers (relayRun [RelayEvent.subscribe 1 "D1"]) "D1").map
            (fun s2 => (s2, "D1", "x")), x.1 ≠ 2)
      ∧ (∀ st : RelayState,
          (relayStep st (RelayEvent.subscribe 2 "D1")).delivered
            = st.delivered)) :=
  ⟨by decide, fanout_no_backlog _ "D1" "x" 2 (by decide)⟩


end N0tvercel
